import Mathlib

/-!
Verification of the FastGrep streaming search engine (src/FastGrep.py).

Bytes and Python strings are modelled as lists of naturals (byte values,
resp. Unicode code points).  The compiled regex pattern is modelled by the
line-level predicate it induces (`re.search` applied to one line of bytes),
since the source applies the pattern only to individual complete lines.
-/

namespace FastGrep

/-- Code points of a Lean string literal, used to embed Python string
constants from the source. -/
def strCp (s : String) : List Nat := s.data.map Char.toNat

/-- The chunk size constant of the source (`CHUNK_SIZE = 65536`). -/
def CHUNK_SIZE : Nat := 65536

/-- Python's `bytes.split(b"\n")`: always returns a nonempty list; no
element contains the newline byte 10; the last element is the trailing
fragment (empty when the input ends with a newline). -/
def pySplitNL : List Nat → List (List Nat)
  | [] => [[]]
  | b :: rest =>
    let r := pySplitNL rest
    if b = 10 then [] :: r
    else (b :: r.headD []) :: r.tail

/-- The last element of a split result, i.e. Python's `lines.pop()`
(the held-back fragment);  `[]` on an empty list (unreachable, since
`pySplitNL` never returns an empty list). -/
def lastFrag : List (List Nat) → List Nat
  | [] => []
  | [l] => l
  | _ :: l2 :: ls => lastFrag (l2 :: ls)

/-- Joining lines back with the newline byte: the inverse of `pySplitNL`. -/
def joinNL : List (List Nat) → List Nat
  | [] => []
  | [l] => l
  | l :: l2 :: ls => l ++ 10 :: joinNL (l2 :: ls)

/-- Python's `str` whitespace predicate (as used by `str.strip()`). -/
def isPySpace (c : Nat) : Bool :=
  decide ((9 ≤ c ∧ c ≤ 13) ∨ (28 ≤ c ∧ c ≤ 31) ∨ c = 32 ∨ c = 133 ∨ c = 160 ∨
    c = 5760 ∨ (8192 ≤ c ∧ c ≤ 8202) ∨ c = 8232 ∨ c = 8233 ∨ c = 8239 ∨
    c = 8287 ∨ c = 12288)

/-- Python's `str.strip()`: drop leading and trailing whitespace. -/
def pyStrip (s : List Nat) : List Nat :=
  ((s.dropWhile isPySpace).reverse.dropWhile isPySpace).reverse

/-- Python's `bytes.decode(errors='ignore')`: UTF-8 decoding where every
byte that is not part of a valid sequence is dropped.  A failed multi-byte
sequence drops its lead byte and rescans from the next byte, which yields
the same retained-byte set as CPython's maximal-subpart error ranges. -/
def utf8DecodeIgnore (s : List Nat) : List Nat :=
  match s with
  | [] => []
  | b :: rest =>
    if b < 128 then b :: utf8DecodeIgnore rest
    else if 194 ≤ b ∧ b ≤ 223 then
      match rest with
      | c1 :: rest1 =>
        if 128 ≤ c1 ∧ c1 ≤ 191 then
          ((b - 192) * 64 + (c1 - 128)) :: utf8DecodeIgnore rest1
        else utf8DecodeIgnore (c1 :: rest1)
      | [] => []
    else if 224 ≤ b ∧ b ≤ 239 then
      match rest with
      | c1 :: c2 :: rest2 =>
        if ((b = 224 ∧ 160 ≤ c1 ∧ c1 ≤ 191) ∨
            (b = 237 ∧ 128 ≤ c1 ∧ c1 ≤ 159) ∨
            (b ≠ 224 ∧ b ≠ 237 ∧ 128 ≤ c1 ∧ c1 ≤ 191)) ∧
           (128 ≤ c2 ∧ c2 ≤ 191) then
          ((b - 224) * 4096 + (c1 - 128) * 64 + (c2 - 128)) :: utf8DecodeIgnore rest2
        else utf8DecodeIgnore (c1 :: c2 :: rest2)
      | [c1] => utf8DecodeIgnore [c1]
      | [] => []
    else if 240 ≤ b ∧ b ≤ 244 then
      match rest with
      | c1 :: c2 :: c3 :: rest3 =>
        if ((b = 240 ∧ 144 ≤ c1 ∧ c1 ≤ 191) ∨
            (b = 244 ∧ 128 ≤ c1 ∧ c1 ≤ 143) ∨
            (b ≠ 240 ∧ b ≠ 244 ∧ 128 ≤ c1 ∧ c1 ≤ 191)) ∧
           (128 ≤ c2 ∧ c2 ≤ 191) ∧ (128 ≤ c3 ∧ c3 ≤ 191) then
          ((b - 240) * 262144 + (c1 - 128) * 4096 + (c2 - 128) * 64 + (c3 - 128))
            :: utf8DecodeIgnore rest3
        else utf8DecodeIgnore (c1 :: c2 :: c3 :: rest3)
      | [c1, c2] => utf8DecodeIgnore [c1, c2]
      | [c1] => utf8DecodeIgnore [c1]
      | [] => []
    else utf8DecodeIgnore rest
termination_by s.length
decreasing_by all_goals (simp only [List.length_cons]; omega)

/-- A match record, from the source line
`retVal.append(f"{filename}:{line.decode(errors='ignore').strip()}")`. -/
def matchRecord (filename line : List Nat) : List Nat :=
  filename ++ 58 :: pyStrip (utf8DecodeIgnore line)

/-- An error record, from the source line
`retVal.append(f"[ERROR] Could not read {filename}: {e}")`. -/
def errRecord (filename e : List Nat) : List Nat :=
  strCp "[ERROR] Could not read " ++ filename ++ 58 :: 32 :: e

/-- What a stream searcher observes about one file:
* `notFile`: `os.path.isfile(filename)` is false;
* `openFail e`: the file passes the isfile check but `open` (or, for gzip,
  the first header read) raises with message `e`;
* `stream chunks err`: the successive decoded chunks appended to the buffer
  (raw reads for plain text, `gzfile.read` outputs for gzip, the
  `decompressor.decompress` output per compressed read for bzip2 — the
  latter may contain empty chunks), and `some e` when the read/decode of
  the following chunk raises with message `e`. -/
inductive FileInput where
  | notFile : FileInput
  | openFail (e : List Nat) : FileInput
  | stream (chunks : List (List Nat)) (err : Option (List Nat)) : FileInput

/-- The shared chunk loop of the three searchers: append the chunk to the
buffer, split on newline, pop the trailing fragment into the new buffer,
and record every complete line accepted by the pattern. -/
def searchChunks (m : List Nat → Bool) (filename : List Nat) :
    List Nat → List (List Nat) → List (List Nat)
  | _, [] => []
  | buffer, chunk :: rest =>
    (((pySplitNL (buffer ++ chunk)).dropLast.filter m).map (matchRecord filename)) ++
      searchChunks m filename (lastFrag (pySplitNL (buffer ++ chunk))) rest

/-- `SearchInFlat` (src/FastGrep.py lines 183-215).  A missing file prints
a diagnostic to stdout and returns the empty list; an open failure is
caught by the `except` and yields one error record; otherwise the chunk
loop runs over the raw file chunks, with a mid-stream exception appending
one error record after the records already collected. -/
def SearchInFlat (filename : List Nat) (m : List Nat → Bool)
    (input : FileInput) : List (List Nat) :=
  match input with
  | .notFile => []
  | .openFail e => [errRecord filename e]
  | .stream chunks err =>
    searchChunks m filename [] chunks ++
      (match err with
       | none => []
       | some e => [errRecord filename e])

/-- `SearchInBz2` (src/FastGrep.py lines 234-267): identical loop, the
buffered chunks being the outputs of `decompressor.decompress` for each
nonempty compressed read. -/
def SearchInBz2 (filename : List Nat) (m : List Nat → Bool)
    (input : FileInput) : List (List Nat) :=
  match input with
  | .notFile => []
  | .openFail e => [errRecord filename e]
  | .stream chunks err =>
    searchChunks m filename [] chunks ++
      (match err with
       | none => []
       | some e => [errRecord filename e])

/-- `SearchInGz` (src/FastGrep.py lines 286-321): identical loop, the
buffered chunks being the outputs of `gzfile.read(CHUNK_SIZE)`. -/
def SearchInGz (filename : List Nat) (m : List Nat → Bool)
    (input : FileInput) : List (List Nat) :=
  match input with
  | .notFile => []
  | .openFail e => [errRecord filename e]
  | .stream chunks err =>
    searchChunks m filename [] chunks ++
      (match err with
       | none => []
       | some e => [errRecord filename e])

/-- The successive values of `infile.read(n)` on a file of content `xs`:
chunks of `n` bytes until the content is exhausted (`read(0)` returns the
empty bytes at once, ending the loop immediately). -/
def chunksOf (n : Nat) (xs : List Nat) : List (List Nat) :=
  if h : xs = [] ∨ n = 0 then []
  else xs.take n :: chunksOf n (xs.drop n)
termination_by xs.length
decreasing_by
  push_neg at h
  have hx : 0 < xs.length := List.length_pos.mpr h.1
  have hn : 0 < n := Nat.pos_of_ne_zero h.2
  simp only [List.length_drop]
  omega

/-- Specification-side description: the complete (newline-terminated)
lines of a content, i.e. everything but the trailing fragment. -/
def completeLines (content : List Nat) : List (List Nat) :=
  (pySplitNL content).dropLast

/-- Specification-side description: one match record per complete line
accepted by the pattern, in physical order. -/
def matchedRecords (m : List Nat → Bool) (filename content : List Nat) :
    List (List Nat) :=
  ((completeLines content).filter m).map (matchRecord filename)

/-- Python's `s.split(':')[0]`: the prefix of a string up to (excluding)
its first colon. -/
def takeUntilColon (s : List Nat) : List Nat :=
  s.takeWhile (fun c => c != 58)

/-- The count-mode record built by `SearchFilesInParallel`
(src/FastGrep.py line 158): `f"{matches[0].split(':')[0]}:{len(matches)}"`. -/
def countRecord (ms : List (List Nat)) : List Nat :=
  takeUntilColon (ms.headD []) ++ 58 :: strCp (toString ms.length)

/-- The results of `executor.map(func, files, ...)`: one result list per
file, bound to the file's position in the input list (the documented
order-preserving contract of `ProcessPoolExecutor.map`).  `env` gives the
`FileInput` each worker observes for its file. -/
def dispatchResults (func : List Nat → (List Nat → Bool) → FileInput → List (List Nat))
    (files : List (List Nat)) (m : List Nat → Bool)
    (env : List Nat → FileInput) : List (List (List Nat)) :=
  files.map (fun f => func f m (env f))

/-- The body of the result loop of `SearchFilesInParallel`
(src/FastGrep.py lines 154-161): skip an empty result list, append one
count record in count mode, extend with the match records otherwise. -/
def sfipStep (countOnly : Bool) (retVal ms : List (List Nat)) :
    List (List Nat) :=
  if ms.isEmpty then retVal
  else if countOnly then retVal ++ [countRecord ms]
  else retVal ++ ms

/-- `SearchFilesInParallel` (src/FastGrep.py lines 147-163): fold the
result loop over the per-file result lists.  The worker bound
`buffPonies` does not affect the value returned. -/
def SearchFilesInParallel
    (func : List Nat → (List Nat → Bool) → FileInput → List (List Nat))
    (files : List (List Nat)) (m : List Nat → Bool)
    (env : List Nat → FileInput) (countOnly : Bool) (buffPonies : Int) :
    List (List Nat) :=
  (dispatchResults func files m env).foldl (sfipStep countOnly) []

/-- `DetectFileType` (src/FastGrep.py lines 114-123): suffix-only
classification. -/
def DetectFileType (filename : List Nat) : List Nat :=
  if (strCp ".bz2").isSuffixOf filename then strCp "bz"
  else if (strCp ".gz").isSuffixOf filename then strCp "gz"
  else strCp "txt"

/-- The body of the classification loop of `Main` (src/FastGrep.py lines
478-489): append the file to the list matching its detected type. -/
def classifyStep (acc : List (List Nat) × List (List Nat) × List (List Nat))
    (file : List Nat) :
    List (List Nat) × List (List Nat) × List (List Nat) :=
  if DetectFileType file = strCp "bz" then (acc.1 ++ [file], acc.2.1, acc.2.2)
  else if DetectFileType file = strCp "gz" then (acc.1, acc.2.1 ++ [file], acc.2.2)
  else (acc.1, acc.2.1, acc.2.2 ++ [file])

/-- The classification loop of `Main` (src/FastGrep.py lines 474-489):
partition the resolved files into bzip2, gzip and plain lists, preserving
relative order. -/
def classifyFiles (files : List (List Nat)) :
    List (List Nat) × List (List Nat) × List (List Nat) :=
  files.foldl classifyStep ([], [], [])

/-- The dispatch section of `Main` (src/FastGrep.py lines 474-498):
classify, then run one pool pass per encoding group in the fixed order
bzip2, gzip, plain, concatenating the aggregated outputs. -/
def MainMatchedLines (allFiles : List (List Nat)) (m : List Nat → Bool)
    (countOnly : Bool) (env : List Nat → FileInput) (buffPonies : Int) :
    List (List Nat) :=
  (if (classifyFiles allFiles).1.isEmpty then []
   else SearchFilesInParallel SearchInBz2 (classifyFiles allFiles).1 m env countOnly buffPonies) ++
  (if (classifyFiles allFiles).2.1.isEmpty then []
   else SearchFilesInParallel SearchInGz (classifyFiles allFiles).2.1 m env countOnly buffPonies) ++
  (if (classifyFiles allFiles).2.2.isEmpty then []
   else SearchFilesInParallel SearchInFlat (classifyFiles allFiles).2.2 m env countOnly buffPonies)

/-- The default of the workers flag `-w` (src/FastGrep.py line 59):
`max(1, os.cpu_count() - 1)`. -/
def defaultWorkers (cpuCount : Int) : Int := max 1 (cpuCount - 1)

theorem pySplitNL_nil : pySplitNL [] = [[]] := rfl

theorem pySplitNL_cons_nl (rest : List Nat) :
    pySplitNL (10 :: rest) = [] :: pySplitNL rest := by
  simp [pySplitNL]

theorem pySplitNL_cons_ne (b : Nat) (rest : List Nat) (hb : b ≠ 10) :
    pySplitNL (b :: rest) =
      (b :: (pySplitNL rest).headD []) :: (pySplitNL rest).tail := by
  simp [pySplitNL, hb]

theorem pySplitNL_ne_nil (s : List Nat) : pySplitNL s ≠ [] := by
  cases s with
  | nil => simp [pySplitNL]
  | cons b rest =>
    by_cases hb : b = 10
    · subst hb; simp [pySplitNL]
    · simp [pySplitNL, hb]

theorem pySplitNL_exists_cons (s : List Nat) :
    ∃ l ls, pySplitNL s = l :: ls := by
  cases h : pySplitNL s with
  | nil => exact absurd h (pySplitNL_ne_nil s)
  | cons l ls => exact ⟨l, ls, rfl⟩

theorem pySplitNL_no_nl (s : List Nat) : ∀ l ∈ pySplitNL s, 10 ∉ l := by
  induction s with
  | nil =>
    intro l hl
    simp [pySplitNL] at hl
    subst hl; simp
  | cons b rest ih =>
    obtain ⟨l0, ls0, h0⟩ := pySplitNL_exists_cons rest
    by_cases hb : b = 10
    · subst hb
      intro l hl
      rw [pySplitNL_cons_nl] at hl
      rcases List.mem_cons.mp hl with h | h
      · subst h; simp
      · exact ih l h
    · intro l hl
      rw [pySplitNL_cons_ne b rest hb, h0] at hl
      simp only [List.headD_cons, List.tail_cons] at hl
      rcases List.mem_cons.mp hl with h | h
      · subst h
        intro hc
        rcases List.mem_cons.mp hc with h | h
        · exact hb h.symm
        · exact ih l0 (by rw [h0]; exact List.mem_cons_self _ _) h
      · exact ih l (by rw [h0]; exact List.mem_cons_of_mem _ h)

theorem pySplitNL_of_no_nl (s : List Nat) (h : (10 : Nat) ∉ s) :
    pySplitNL s = [s] := by
  induction s with
  | nil => rfl
  | cons b rest ih =>
    have hb : b ≠ 10 := fun e => h (e ▸ List.mem_cons_self b rest)
    have h2 : (10 : Nat) ∉ rest := fun hr => h (List.mem_cons_of_mem b hr)
    rw [pySplitNL_cons_ne b rest hb, ih h2]
    rfl

theorem lastFrag_cons_cons (l l2 : List Nat) (ls : List (List Nat)) :
    lastFrag (l :: l2 :: ls) = lastFrag (l2 :: ls) := rfl

theorem lastFrag_append (xs ys : List (List Nat)) (hys : ys ≠ []) :
    lastFrag (xs ++ ys) = lastFrag ys := by
  induction xs with
  | nil => rfl
  | cons x xs ih =>
    have hne : xs ++ ys ≠ [] := fun hc => hys (List.append_eq_nil.mp hc).2
    cases hxy : xs ++ ys with
    | nil => exact absurd hxy hne
    | cons z zs =>
      simp only [List.cons_append]
      rw [hxy, lastFrag_cons_cons, ← hxy, ih]

theorem lastFrag_mem (ls : List (List Nat)) (h : ls ≠ []) : lastFrag ls ∈ ls := by
  induction ls with
  | nil => exact absurd rfl h
  | cons l ls ih =>
    cases ls with
    | nil => simp [lastFrag]
    | cons l2 ls2 =>
      rw [lastFrag_cons_cons]
      exact List.mem_cons_of_mem _ (ih (by simp))

theorem lastFrag_no_nl (s : List Nat) : (10 : Nat) ∉ lastFrag (pySplitNL s) :=
  pySplitNL_no_nl s _ (lastFrag_mem _ (pySplitNL_ne_nil s))

theorem joinNL_cons_cons (l l2 : List Nat) (ls : List (List Nat)) :
    joinNL (l :: l2 :: ls) = l ++ 10 :: joinNL (l2 :: ls) := rfl

theorem joinNL_cons_head (b : Nat) (l : List Nat) (ls : List (List Nat)) :
    joinNL ((b :: l) :: ls) = b :: joinNL (l :: ls) := by
  cases ls with
  | nil => rfl
  | cons l2 ls2 => simp [joinNL_cons_cons]

theorem joinNL_pySplitNL (s : List Nat) : joinNL (pySplitNL s) = s := by
  induction s with
  | nil => rfl
  | cons b rest ih =>
    obtain ⟨l0, ls0, h0⟩ := pySplitNL_exists_cons rest
    rw [h0] at ih
    by_cases hb : b = 10
    · subst hb
      rw [pySplitNL_cons_nl, h0, joinNL_cons_cons, ih]
      simp
    · rw [pySplitNL_cons_ne b rest hb, h0]
      simp only [List.headD_cons, List.tail_cons]
      rw [joinNL_cons_head, ih]

theorem dropLast_cons_cons {α : Type} (a b : α) (t : List α) :
    (a :: b :: t).dropLast = a :: (b :: t).dropLast := rfl

theorem dropLast_append_ne {α : Type} (xs ys : List α) (h : ys ≠ []) :
    (xs ++ ys).dropLast = xs ++ ys.dropLast := by
  induction xs with
  | nil => simp
  | cons x xs ih =>
    have hne : xs ++ ys ≠ [] := fun hc => h (List.append_eq_nil.mp hc).2
    cases hxy : xs ++ ys with
    | nil => exact absurd hxy hne
    | cons z zs =>
      simp only [List.cons_append]
      rw [hxy, dropLast_cons_cons, ← hxy, ih]

theorem pySplitNL_append (a b : List Nat) :
    pySplitNL (a ++ b) =
      (pySplitNL a).dropLast ++ pySplitNL (lastFrag (pySplitNL a) ++ b) := by
  induction a with
  | nil => simp [pySplitNL, lastFrag]
  | cons x a ih =>
    obtain ⟨l0, ls0, h0⟩ := pySplitNL_exists_cons a
    rw [h0] at ih
    by_cases hx : x = 10
    · subst hx
      simp only [List.cons_append]
      rw [pySplitNL_cons_nl, pySplitNL_cons_nl, ih, h0, dropLast_cons_cons,
        lastFrag_cons_cons]
      rfl
    · simp only [List.cons_append]
      rw [pySplitNL_cons_ne x (a ++ b) hx, ih, pySplitNL_cons_ne x a hx, h0]
      simp only [List.headD_cons, List.tail_cons]
      cases ls0 with
      | nil =>
        simp only [List.dropLast_single, List.nil_append, lastFrag]
        rw [List.cons_append, pySplitNL_cons_ne x (l0 ++ b) hx]
      | cons l1 ls1 =>
        rw [dropLast_cons_cons, dropLast_cons_cons, lastFrag_cons_cons,
          lastFrag_cons_cons]
        simp

theorem pySplitNL_append_dropLast (a b : List Nat) :
    (pySplitNL (a ++ b)).dropLast
      = (pySplitNL a).dropLast ++
          (pySplitNL (lastFrag (pySplitNL a) ++ b)).dropLast := by
  rw [pySplitNL_append a b, dropLast_append_ne _ _ (pySplitNL_ne_nil _)]

theorem pySplitNL_append_lastFrag (a b : List Nat) :
    lastFrag (pySplitNL (a ++ b))
      = lastFrag (pySplitNL (lastFrag (pySplitNL a) ++ b)) := by
  rw [pySplitNL_append a b, lastFrag_append _ _ (pySplitNL_ne_nil _)]

theorem searchChunks_cons_eq (m : List Nat → Bool) (fn buf chunk : List Nat)
    (rest : List (List Nat)) :
    searchChunks m fn buf (chunk :: rest)
      = (((pySplitNL (buf ++ chunk)).dropLast.filter m).map (matchRecord fn)) ++
          searchChunks m fn (lastFrag (pySplitNL (buf ++ chunk))) rest := rfl

theorem searchChunks_flatten (m : List Nat → Bool) (fn : List Nat) :
    ∀ (cs : List (List Nat)) (buf : List Nat), cs ≠ [] →
      searchChunks m fn buf cs
        = ((pySplitNL (buf ++ cs.flatten)).dropLast.filter m).map (matchRecord fn) := by
  intro cs
  induction cs with
  | nil => intro buf h; exact absurd rfl h
  | cons c cs ih =>
    intro buf _
    cases cs with
    | nil => simp [searchChunks_cons_eq, searchChunks]
    | cons c2 cs2 =>
      rw [searchChunks_cons_eq, ih _ (by simp)]
      have hassoc : buf ++ (c :: c2 :: cs2).flatten
          = (buf ++ c) ++ (c2 :: cs2).flatten := by
        simp [List.flatten_cons, List.append_assoc]
      rw [hassoc, pySplitNL_append_dropLast (buf ++ c) ((c2 :: cs2).flatten),
        List.filter_append, List.map_append]

theorem searchChunks_eq (m : List Nat → Bool) (fn : List Nat)
    (cs : List (List Nat)) :
    searchChunks m fn [] cs
      = ((pySplitNL cs.flatten).dropLast.filter m).map (matchRecord fn) := by
  cases cs with
  | nil => simp [searchChunks, pySplitNL]
  | cons c cs =>
    rw [searchChunks_flatten m fn (c :: cs) [] (by simp)]
    simp

theorem flatten_chunksOf_aux (n : Nat) (hn : 0 < n) :
    ∀ (k : Nat) (xs : List Nat), xs.length ≤ k →
      (chunksOf n xs).flatten = xs := by
  intro k
  induction k with
  | zero =>
    intro xs hx
    have hxs : xs = [] := List.length_eq_zero.mp (Nat.le_zero.mp hx)
    subst hxs
    rw [chunksOf]
    simp
  | succ k ih =>
    intro xs hx
    by_cases hxs : xs = []
    · subst hxs
      rw [chunksOf]
      simp
    · rw [chunksOf]
      have hcond : ¬(xs = [] ∨ n = 0) := by
        push_neg
        exact ⟨hxs, Nat.pos_iff_ne_zero.mp hn⟩
      rw [dif_neg hcond]
      have hlen : (xs.drop n).length ≤ k := by
        have h1 : 0 < xs.length := List.length_pos.mpr hxs
        simp only [List.length_drop]
        omega
      simp only [List.flatten_cons, ih (xs.drop n) hlen]
      exact List.take_append_drop n xs

theorem flatten_chunksOf (n : Nat) (hn : 0 < n) (xs : List Nat) :
    (chunksOf n xs).flatten = xs :=
  flatten_chunksOf_aux n hn xs.length xs (Nat.le_refl _)

theorem sfip_foldl_general (co : Bool) :
    ∀ (results : List (List (List Nat))) (acc : List (List Nat)),
      results.foldl (sfipStep co) acc
      = acc ++ (if co then (results.filter (fun r => !r.isEmpty)).map countRecord
                else results.flatten) := by
  intro results
  induction results with
  | nil => intro acc; cases co <;> simp
  | cons r rs ih =>
    intro acc
    rw [List.foldl_cons]
    by_cases hr : r = []
    · subst hr
      have hstep : sfipStep co acc [] = acc := by simp [sfipStep]
      rw [hstep, ih]
      cases co <;> simp
    · have hne : r.isEmpty = false := by
        cases r with
        | nil => exact absurd rfl hr
        | cons x xs => rfl
      have hstep : sfipStep co acc r
          = if co then acc ++ [countRecord r] else acc ++ r := by
        simp [sfipStep, hne]
      rw [hstep, ih]
      cases co <;> simp [List.filter_cons, hne, List.append_assoc]

theorem SearchFilesInParallel_eq
    (func : List Nat → (List Nat → Bool) → FileInput → List (List Nat))
    (files : List (List Nat)) (m : List Nat → Bool)
    (env : List Nat → FileInput) (co : Bool) (w : Int) :
    SearchFilesInParallel func files m env co w
      = (if co then
          ((dispatchResults func files m env).filter (fun r => !r.isEmpty)).map
            countRecord
         else (dispatchResults func files m env).flatten) := by
  rw [SearchFilesInParallel, sfip_foldl_general co (dispatchResults func files m env) []]
  simp

theorem SearchFilesInParallel_nil
    (func : List Nat → (List Nat → Bool) → FileInput → List (List Nat))
    (m : List Nat → Bool) (env : List Nat → FileInput) (co : Bool) (w : Int) :
    SearchFilesInParallel func [] m env co w = [] := by
  rw [SearchFilesInParallel_eq]
  cases co <;> simp [dispatchResults]

theorem strCp_types_distinct :
    strCp "bz" ≠ strCp "gz" ∧ strCp "bz" ≠ strCp "txt" ∧
      strCp "gz" ≠ strCp "txt" := by decide

theorem DetectFileType_cases (f : List Nat) :
    DetectFileType f = strCp "bz" ∨ DetectFileType f = strCp "gz" ∨
      DetectFileType f = strCp "txt" := by
  rw [DetectFileType]
  split_ifs <;> simp

theorem classify_foldl :
    ∀ (files : List (List Nat))
      (acc : List (List Nat) × List (List Nat) × List (List Nat)),
      files.foldl classifyStep acc
      = (acc.1 ++ files.filter (fun f => decide (DetectFileType f = strCp "bz")),
         acc.2.1 ++ files.filter (fun f => decide (DetectFileType f = strCp "gz")),
         acc.2.2 ++ files.filter (fun f => decide (DetectFileType f = strCp "txt"))) := by
  intro files
  induction files with
  | nil => intro acc; simp
  | cons f fs ih =>
    intro acc
    rw [List.foldl_cons]
    by_cases h1 : DetectFileType f = strCp "bz"
    · have h2 : ¬DetectFileType f = strCp "gz" := by
        rw [h1]; exact strCp_types_distinct.1
      have h3 : ¬DetectFileType f = strCp "txt" := by
        rw [h1]; exact strCp_types_distinct.2.1
      have hstep : classifyStep acc f = (acc.1 ++ [f], acc.2.1, acc.2.2) := by
        rw [classifyStep, if_pos h1]
      rw [hstep, ih]
      simp [List.filter_cons, decide_eq_true h1, decide_eq_false h2,
        decide_eq_false h3, List.append_assoc]
    · by_cases h2 : DetectFileType f = strCp "gz"
      · have h3 : ¬DetectFileType f = strCp "txt" := by
          rw [h2]; exact strCp_types_distinct.2.2
        have hstep : classifyStep acc f = (acc.1, acc.2.1 ++ [f], acc.2.2) := by
          rw [classifyStep, if_neg h1, if_pos h2]
        rw [hstep, ih]
        simp [List.filter_cons, decide_eq_false h1, decide_eq_true h2,
          decide_eq_false h3, List.append_assoc]
      · have h3 : DetectFileType f = strCp "txt" := by
          rcases DetectFileType_cases f with h | h | h
          · exact absurd h h1
          · exact absurd h h2
          · exact h
        have hstep : classifyStep acc f = (acc.1, acc.2.1, acc.2.2 ++ [f]) := by
          rw [classifyStep, if_neg h1, if_neg h2]
        rw [hstep, ih]
        simp [List.filter_cons, decide_eq_false h1, decide_eq_false h2,
          decide_eq_true h3, List.append_assoc]

theorem classifyFiles_eq (files : List (List Nat)) :
    classifyFiles files
      = (files.filter (fun f => decide (DetectFileType f = strCp "bz")),
         files.filter (fun f => decide (DetectFileType f = strCp "gz")),
         files.filter (fun f => decide (DetectFileType f = strCp "txt"))) := by
  rw [classifyFiles, classify_foldl]
  simp

theorem takeWhile_append_all (p : Nat → Bool) (a b : List Nat)
    (h : ∀ x ∈ a, p x = true) :
    (a ++ b).takeWhile p = a ++ b.takeWhile p := by
  induction a with
  | nil => simp
  | cons x xs ih =>
    have hx : p x = true := h x (List.mem_cons_self _ _)
    simp only [List.cons_append, List.takeWhile_cons, hx, if_true]
    rw [ih (fun y hy => h y (List.mem_cons_of_mem _ hy))]

theorem takeWhile_append_stop (p : Nat → Bool) (a : List Nat) (y : Nat)
    (c : List Nat) (hy : p y = false) :
    (a ++ y :: c).takeWhile p = a.takeWhile p := by
  induction a with
  | nil => simp [List.takeWhile_cons, hy]
  | cons x xs ih =>
    by_cases hx : p x = true
    · simp only [List.cons_append, List.takeWhile_cons, hx, if_true]
      rw [ih]
    · simp only [List.cons_append, List.takeWhile_cons]
      rw [if_neg (by simp [hx]), if_neg (by simp [hx])]

theorem SearchInFlat_stream_none (fname : List Nat) (m : List Nat → Bool)
    (chunks : List (List Nat)) :
    SearchInFlat fname m (.stream chunks none) = searchChunks m fname [] chunks := by
  simp [SearchInFlat]

theorem SearchInBz2_stream_none (fname : List Nat) (m : List Nat → Bool)
    (chunks : List (List Nat)) :
    SearchInBz2 fname m (.stream chunks none) = searchChunks m fname [] chunks := by
  simp [SearchInBz2]

theorem SearchInGz_stream_none (fname : List Nat) (m : List Nat → Bool)
    (chunks : List (List Nat)) :
    SearchInGz fname m (.stream chunks none) = searchChunks m fname [] chunks := by
  simp [SearchInGz]

theorem completeLines_append_no_nl (content frag : List Nat)
    (h : (10 : Nat) ∉ frag) :
    (pySplitNL (content ++ frag)).dropLast = (pySplitNL content).dropLast := by
  rw [pySplitNL_append content frag]
  have h2 : (10 : Nat) ∉ lastFrag (pySplitNL content) ++ frag := by
    intro hmem
    rcases List.mem_append.mp hmem with hm | hm
    · exact lastFrag_no_nl content hm
    · exact h hm
  rw [pySplitNL_of_no_nl _ h2, dropLast_append_ne _ _ (by simp)]
  simp

theorem dropLast_append_lastFrag (ls : List (List Nat)) (h : ls ≠ []) :
    ls.dropLast ++ [lastFrag ls] = ls := by
  induction ls with
  | nil => exact absurd rfl h
  | cons l ls ih =>
    cases ls with
    | nil => simp [lastFrag]
    | cons l2 ls2 =>
      rw [lastFrag_cons_cons, dropLast_cons_cons, List.cons_append, ih (by simp)]

theorem if_isEmpty_sfip
    (func : List Nat → (List Nat → Bool) → FileInput → List (List Nat))
    (l : List (List Nat)) (m : List Nat → Bool) (env : List Nat → FileInput)
    (co : Bool) (w : Int) :
    (if l.isEmpty then [] else SearchFilesInParallel func l m env co w)
      = SearchFilesInParallel func l m env co w := by
  cases l with
  | nil => simp [SearchFilesInParallel_nil]
  | cons x xs => rfl

theorem takeUntilColon_append_colon (a c : List Nat) :
    takeUntilColon (a ++ 58 :: c) = takeUntilColon a := by
  rw [takeUntilColon, takeUntilColon, takeWhile_append_stop _ a 58 c (by simp)]

theorem takeUntilColon_no_colon (a c : List Nat) (h : (58 : Nat) ∉ a) :
    takeUntilColon (a ++ 58 :: c) = a := by
  rw [takeUntilColon, takeWhile_append_all _ a _ ?hall]
  case hall =>
    intro x hx
    simp only [bne_iff_ne, ne_eq]
    exact fun he => h (he ▸ hx)
  simp

theorem takeUntilColon_ne_self (a : List Nat) (h : (58 : Nat) ∈ a) :
    takeUntilColon a ≠ a := by
  intro heq
  have hall := List.takeWhile_eq_self_iff.mp heq
  have := hall 58 h
  simp at this

theorem takeUntilColon_idem (a : List Nat) :
    (a.takeWhile (fun c => c != 58)).takeWhile (fun c => c != 58)
      = a.takeWhile (fun c => c != 58) := by
  apply List.takeWhile_eq_self_iff.mpr
  intro x hx
  have h2 := List.mem_takeWhile_imp hx
  exact h2

theorem mem_of_mem_dropLast {α : Type} (l : List α) (x : α)
    (hx : x ∈ l.dropLast) : x ∈ l := by
  induction l with
  | nil => simp at hx
  | cons a t ih =>
    cases t with
    | nil => simp at hx
    | cons b t2 =>
      rw [dropLast_cons_cons] at hx
      rcases List.mem_cons.mp hx with h | h
      · exact h ▸ List.mem_cons_self _ _
      · exact List.mem_cons_of_mem _ (ih h)

/-- Claim C1: for every file whose content does not end with a newline,
the trailing unterminated fragment is never evaluated against the pattern
by any of the three stream searchers — even when the fragment satisfies
the pattern — while every newline-terminated line is evaluated: the match
list is exactly the matched complete lines of the content without the
fragment. -/
theorem C1_fragment_never_evaluated (fname : List Nat) (m : List Nat → Bool)
    (content frag : List Nat) (hfrag : (10 : Nat) ∉ frag)
    (hm : m frag = true) :
    SearchInFlat fname m (.stream (chunksOf CHUNK_SIZE (content ++ frag)) none)
        = matchedRecords m fname content
    ∧ ∀ cs : List (List Nat), cs.flatten = content ++ frag →
        SearchInBz2 fname m (.stream cs none) = matchedRecords m fname content
        ∧ SearchInGz fname m (.stream cs none) = matchedRecords m fname content := by
  have hkey : (pySplitNL (content ++ frag)).dropLast = (pySplitNL content).dropLast :=
    completeLines_append_no_nl content frag hfrag
  refine ⟨?_, ?_⟩
  · rw [SearchInFlat_stream_none, searchChunks_eq,
      flatten_chunksOf CHUNK_SIZE (by decide) (content ++ frag), hkey]
    rfl
  · intro cs hcs
    constructor
    · rw [SearchInBz2_stream_none, searchChunks_eq, hcs, hkey]
      rfl
    · rw [SearchInGz_stream_none, searchChunks_eq, hcs, hkey]
      rfl

/-- Claim C1 witness. -/
theorem C1_fragment_never_evaluated_witness :
    SearchInFlat (strCp "a.txt") (fun _ => true)
        (.stream (chunksOf CHUNK_SIZE (strCp "ab\n" ++ strCp "cd")) none)
      = matchedRecords (fun _ => true) (strCp "a.txt") (strCp "ab\n") :=
  (C1_fragment_never_evaluated (strCp "a.txt") (fun _ => true) (strCp "ab\n")
    (strCp "cd") (by decide) rfl).1

/-- Claim C2: for every content, line-level pattern and positive chunk
size, the chunked read-buffer-split loop produces exactly the match
records of the complete newline-terminated lines of the whole content —
independent of the chunk size, so a match lying across a chunk-read
boundary inside one line is still found, and the pattern is only ever
applied to single lines, never across two lines. -/
theorem C2_chunking_independent (fname : List Nat) (m : List Nat → Bool)
    (content : List Nat) (n : Nat) (hn : 0 < n) :
    SearchInFlat fname m (.stream (chunksOf n content) none)
      = matchedRecords m fname content := by
  rw [SearchInFlat_stream_none, searchChunks_eq, flatten_chunksOf n hn content]
  rfl

/-- Claim C2 witness (chunk size 3 splits the content mid-line). -/
theorem C2_chunking_independent_witness :
    SearchInFlat (strCp "a.txt") (fun l => l.contains 99)
        (.stream (chunksOf 3 (strCp "ab\ncd\n")) none)
      = matchedRecords (fun l => l.contains 99) (strCp "a.txt") (strCp "ab\ncd\n") :=
  C2_chunking_independent (strCp "a.txt") (fun l => l.contains 99)
    (strCp "ab\ncd\n") 3 (by decide)

/-- Claim C3: searching a gzip stream whose decompressed reads flatten to
`content`, or a bzip2 stream whose per-chunk decompression outputs flatten
to `content`, yields output identical to searching the uncompressed
content with the plain searcher. -/
theorem C3_roundtrip (fname : List Nat) (m : List Nat → Bool)
    (content : List Nat) (gzChunks bzChunks : List (List Nat))
    (hgz : gzChunks.flatten = content) (hbz : bzChunks.flatten = content) :
    SearchInGz fname m (.stream gzChunks none)
        = SearchInFlat fname m (.stream (chunksOf CHUNK_SIZE content) none)
    ∧ SearchInBz2 fname m (.stream bzChunks none)
        = SearchInFlat fname m (.stream (chunksOf CHUNK_SIZE content) none) := by
  constructor
  · rw [SearchInGz_stream_none, SearchInFlat_stream_none, searchChunks_eq,
      searchChunks_eq, hgz, flatten_chunksOf CHUNK_SIZE (by decide) content]
  · rw [SearchInBz2_stream_none, SearchInFlat_stream_none, searchChunks_eq,
      searchChunks_eq, hbz, flatten_chunksOf CHUNK_SIZE (by decide) content]

/-- Claim C3 witness (gzip chunks split mid-line; bzip2 chunks include an
empty decompression output). -/
theorem C3_roundtrip_witness :
    SearchInGz (strCp "a.gz") (fun _ => true)
        (.stream [strCp "ab", strCp "c\nd"] none)
      = SearchInFlat (strCp "a.gz") (fun _ => true)
          (.stream (chunksOf CHUNK_SIZE (strCp "abc\nd")) none)
    ∧ SearchInBz2 (strCp "a.gz") (fun _ => true)
        (.stream [[], strCp "abc\nd"] none)
      = SearchInFlat (strCp "a.gz") (fun _ => true)
          (.stream (chunksOf CHUNK_SIZE (strCp "abc\nd")) none) :=
  C3_roundtrip (strCp "a.gz") (fun _ => true) (strCp "abc\nd")
    [strCp "ab", strCp "c\nd"] [[], strCp "abc\nd"] (by decide) (by decide)

/-- Claim C4: the final output of the dispatch section of `Main` is
grouped by encoding in the fixed order bzip2, gzip, plain — each group
being the order-preserving filter of the input list, regardless of the
original argument order — and within each pass the dispatcher binds each
file's result list to the file's position in the input list (map-style
semantics). -/
theorem C4_encoding_group_order (allFiles : List (List Nat))
    (m : List Nat → Bool) (countOnly : Bool) (env : List Nat → FileInput)
    (w : Int) :
    MainMatchedLines allFiles m countOnly env w
      = SearchFilesInParallel SearchInBz2
          (allFiles.filter (fun f => decide (DetectFileType f = strCp "bz")))
          m env countOnly w
        ++ SearchFilesInParallel SearchInGz
          (allFiles.filter (fun f => decide (DetectFileType f = strCp "gz")))
          m env countOnly w
        ++ SearchFilesInParallel SearchInFlat
          (allFiles.filter (fun f => decide (DetectFileType f = strCp "txt")))
          m env countOnly w
    ∧ ∀ (func : List Nat → (List Nat → Bool) → FileInput → List (List Nat))
        (files : List (List Nat)) (i : Nat),
        (dispatchResults func files m env)[i]?
          = (files[i]?).map (fun f => func f m (env f)) := by
  constructor
  · rw [MainMatchedLines, classifyFiles_eq]
    simp only [if_isEmpty_sfip]
  · intro func files i
    rw [dispatchResults, List.getElem?_map]

/-- Claim C5: in count mode the aggregator emits exactly one record per
file whose result list is nonempty — its label being the first record's
prefix up to the first colon, its count the length of that file's record
list — and nothing for a file with an empty result list; in line mode it
concatenates the result lists, so an empty result list likewise
contributes no records. -/
theorem C5_count_mode
    (func : List Nat → (List Nat → Bool) → FileInput → List (List Nat))
    (files : List (List Nat)) (m : List Nat → Bool)
    (env : List Nat → FileInput) (w : Int) :
    SearchFilesInParallel func files m env true w
      = ((dispatchResults func files m env).filter (fun r => !r.isEmpty)).map
          (fun r => takeUntilColon (r.headD []) ++ 58 :: strCp (toString r.length))
    ∧ SearchFilesInParallel func files m env false w
      = (dispatchResults func files m env).flatten := by
  constructor
  · rw [SearchFilesInParallel_eq]
    simp [countRecord]
  · rw [SearchFilesInParallel_eq]
    simp

/-- Claim C6 counterexample: a path that fails the `os.path.isfile` check
yields the empty result list — no error MatchRecord at all (the diagnostic
goes to stdout instead) — refuting that every nonexistent or unopenable
path yields exactly one error MatchRecord. -/
theorem C6_counterexample :
    SearchInFlat (strCp "missing.txt") (fun _ => true) FileInput.notFile = []
    ∧ (SearchInFlat (strCp "missing.txt") (fun _ => true)
        FileInput.notFile).length ≠ 1 := by
  exact ⟨rfl, by decide⟩

/-- Claim C6 as amended: a file that exists but cannot be opened (the
`open` call raises) yields exactly one error MatchRecord and does not
abort the batch; a path that fails the `os.path.isfile` check yields zero
MatchRecords (a diagnostic is printed to stdout instead). -/
theorem C6_open_failure (fname e : List Nat) (m : List Nat → Bool) :
    (SearchInFlat fname m (.openFail e) = [errRecord fname e]
      ∧ SearchInBz2 fname m (.openFail e) = [errRecord fname e]
      ∧ SearchInGz fname m (.openFail e) = [errRecord fname e])
    ∧ (SearchInFlat fname m .notFile = []
      ∧ SearchInBz2 fname m .notFile = []
      ∧ SearchInGz fname m .notFile = []) :=
  ⟨⟨rfl, rfl, rfl⟩, ⟨rfl, rfl, rfl⟩⟩

/-- Claim C7: a mid-stream read/decode exception stops that file's search
after the chunks already processed and appends exactly one error
MatchRecord to its result list; and each file's result in a batch depends
only on that file, so every other file's result list is identical to what
it would be had the failing file not been present. -/
theorem C7_midstream_error (fname e : List Nat) (m : List Nat → Bool)
    (chunks : List (List Nat))
    (func : List Nat → (List Nat → Bool) → FileInput → List (List Nat))
    (pre post : List (List Nat)) (env : List Nat → FileInput) :
    (SearchInFlat fname m (.stream chunks (some e))
        = searchChunks m fname [] chunks ++ [errRecord fname e]
      ∧ SearchInBz2 fname m (.stream chunks (some e))
        = searchChunks m fname [] chunks ++ [errRecord fname e]
      ∧ SearchInGz fname m (.stream chunks (some e))
        = searchChunks m fname [] chunks ++ [errRecord fname e])
    ∧ dispatchResults func (pre ++ fname :: post) m env
        = dispatchResults func pre m env
            ++ func fname m (env fname) :: dispatchResults func post m env := by
  refine ⟨⟨rfl, rfl, rfl⟩, ?_⟩
  simp [dispatchResults]

/-- Claim C8: invariant of the chunk buffer — after each chunk is
processed, the new buffer (the held-back final split fragment) contains no
newline byte, every extracted complete line contains no newline byte, the
extracted lines followed by the new buffer reassemble exactly the
accumulated bytes (all complete lines are extracted in order, the
remainder becomes the new buffer), and the search loop steps accordingly. -/
theorem C8_buffer_invariant (buffer chunk : List Nat) (m : List Nat → Bool)
    (fname : List Nat) :
    ((10 : Nat) ∉ lastFrag (pySplitNL (buffer ++ chunk)))
    ∧ (∀ l ∈ (pySplitNL (buffer ++ chunk)).dropLast, (10 : Nat) ∉ l)
    ∧ joinNL ((pySplitNL (buffer ++ chunk)).dropLast
          ++ [lastFrag (pySplitNL (buffer ++ chunk))]) = buffer ++ chunk
    ∧ ∀ rest : List (List Nat),
        searchChunks m fname buffer (chunk :: rest)
          = (((pySplitNL (buffer ++ chunk)).dropLast.filter m).map
              (matchRecord fname))
              ++ searchChunks m fname (lastFrag (pySplitNL (buffer ++ chunk))) rest := by
  refine ⟨lastFrag_no_nl (buffer ++ chunk), ?_, ?_, ?_⟩
  · intro l hl
    exact pySplitNL_no_nl (buffer ++ chunk) l (mem_of_mem_dropLast _ _ hl)
  · rw [dropLast_append_lastFrag _ (pySplitNL_ne_nil _), joinNL_pySplitNL]
  · intro rest
    exact searchChunks_cons_eq m fname buffer chunk rest

/-- Claim C9 counterexample: on a single-core machine the default worker
count is 1, not 1 − 1 = 0, refuting that the default equals cores minus
one for every core count. -/
theorem C9_counterexample : defaultWorkers 1 ≠ (1 : Int) - 1 := by decide

/-- Claim C9 as amended: the default worker-count bound is
`max(1, cores − 1)` — cores minus one clamped below at one, so it equals
cores minus one exactly when the machine has at least two cores. -/
theorem C9_default_workers (n : Int) :
    defaultWorkers n = if n ≤ 1 then 1 else n - 1 := by
  rw [defaultWorkers]
  by_cases h : n ≤ 1
  · rw [if_pos h]
    exact max_eq_left (by omega)
  · rw [if_neg h]
    exact max_eq_right (by omega)

/-- Claim C10: the count-mode label is the first record's prefix up to its
first colon; it equals the file path when the first record is a match
record and the path is colon-free, and differs from the file path whenever
the path contains a colon or the first record is an error marker. -/
theorem C10_count_label (fname1 fname2 line e1 e2 : List Nat)
    (h1 : (58 : Nat) ∉ fname1) (h2 : (58 : Nat) ∈ fname2) :
    (∀ (r : List Nat) (rs : List (List Nat)),
        countRecord (r :: rs)
          = takeUntilColon r ++ 58 :: strCp (toString (r :: rs).length))
    ∧ takeUntilColon (matchRecord fname1 line) = fname1
    ∧ takeUntilColon (matchRecord fname2 line) ≠ fname2
    ∧ takeUntilColon (errRecord fname1 e1) ≠ fname1
    ∧ takeUntilColon (errRecord fname2 e2) ≠ fname2 := by
  have hpre : ∀ x ∈ strCp "[ERROR] Could not read ", (x != 58) = true := by decide
  have herr : ∀ fname e : List Nat, takeUntilColon (errRecord fname e)
      = strCp "[ERROR] Could not read " ++ takeUntilColon (fname ++ 58 :: 32 :: e) := by
    intro fname e
    rw [errRecord, takeUntilColon, takeUntilColon, List.append_assoc,
      takeWhile_append_all _ _ _ hpre]
  refine ⟨?_, ?_, ?_, ?_, ?_⟩
  · intro r rs
    rw [countRecord]
    rfl
  · rw [matchRecord, takeUntilColon_no_colon _ _ h1]
  · rw [matchRecord, takeUntilColon_append_colon]
    exact takeUntilColon_ne_self fname2 h2
  · rw [herr, takeUntilColon_no_colon _ _ h1]
    intro heq
    have hlen := congrArg List.length heq
    rw [List.length_append] at hlen
    have : (strCp "[ERROR] Could not read ").length = 23 := by decide
    omega
  · rw [herr, takeUntilColon_append_colon]
    intro heq
    have h2' : takeUntilColon fname2
        = strCp "[ERROR] Could not read " ++ takeUntilColon fname2 := by
      conv_lhs => rw [← heq]
      rw [takeUntilColon, takeUntilColon, takeWhile_append_all _ _ _ hpre,
        takeUntilColon_idem]
    have hlen := congrArg List.length h2'
    rw [List.length_append] at hlen
    have : (strCp "[ERROR] Could not read ").length = 23 := by decide
    omega

/-- Claim C10 witness. -/
theorem C10_count_label_witness :
    takeUntilColon (matchRecord (strCp "a.txt") (strCp "x")) = strCp "a.txt"
    ∧ takeUntilColon (matchRecord (strCp "a:b") (strCp "x")) ≠ strCp "a:b"
    ∧ takeUntilColon (errRecord (strCp "a.txt") (strCp "boom")) ≠ strCp "a.txt"
    ∧ takeUntilColon (errRecord (strCp "a:b") (strCp "boom")) ≠ strCp "a:b" := by
  have h := C10_count_label (strCp "a.txt") (strCp "a:b") (strCp "x")
    (strCp "boom") (strCp "boom") (by decide) (by decide)
  exact ⟨h.2.1, h.2.2.1, h.2.2.2.1, h.2.2.2.2⟩

end FastGrep
